import Mathlib

/-!
Verification of the pub.dev version-scanner (`src/spider.py`) against its
natural-language specification.  The Python program is shallowly embedded:
JSON payloads become an inductive `JSON` type, Python-level operations
(`in`, `.get`, `len`, truthiness, `str()`, `str.replace`, `str.strip`,
iteration) become executable Lean functions that mirror CPython semantics,
exceptions become `Except Unit` / `Option`, and the thread pool becomes an
explicit quantification over completion orders.  `datetime.fromisoformat`
is modelled for the extended ISO-8601 forms the program can meet
(`YYYY-MM-DD[{T or space}HH[:MM[:SS[.1-6 fractional digits]]]][±HH:MM]`);
basic forms without separators and week dates are outside the model, and
Python's acceptance of an arbitrary date/time separator character is
restricted to `T` and space.  Aware/naive datetime comparison semantics
(comparing a parsed naive datetime with the aware window bounds raises
`TypeError`, which the code's bare `except` turns into a skip) are folded
into `parsePublishedInstant`, which yields an instant only for strings
carrying a UTC offset.
-/

/-- A JSON value as produced by `response.json()`: Python `None`, `bool`,
`int`, `str`, `list`, `dict`.  Objects model Python dicts, whose keys are
pairwise distinct in any value produced by JSON decoding. -/
inductive JSON where
  | null : JSON
  | b (b : Bool) : JSON
  | i (n : Int) : JSON
  | s (s : String) : JSON
  | arr (xs : List JSON) : JSON
  | obj (kvs : List (String × JSON)) : JSON

/-- Python truthiness (`bool(x)`) on JSON values. -/
def pyTruthy : JSON → Bool
  | JSON.null => false
  | JSON.b bo => bo
  | JSON.i n => n != 0
  | JSON.s st => st != ""
  | JSON.arr xs => !xs.isEmpty
  | JSON.obj kvs => !kvs.isEmpty

/-- `d.get(key, default)` on the key–value list of a Python dict. -/
def dictGet (kvs : List (String × JSON)) (key : String) (dflt : JSON) : JSON :=
  match kvs.find? (fun kv => kv.1 == key) with
  | some kv => kv.2
  | none => dflt

/-- Python `len(x)` for JSON values; `TypeError` for values without a length. -/
def pyLen : JSON → Except Unit Nat
  | JSON.obj kvs => Except.ok kvs.length
  | JSON.arr xs => Except.ok xs.length
  | JSON.s st => Except.ok st.length
  | _ => Except.error ()

/-- Python `a or b` (value-returning short-circuit disjunction). -/
def pyOr (a bv : JSON) : JSON := if pyTruthy a then a else bv

/-- Substring test on character lists, modelling Python `needle in haystack`
for strings. -/
def hasSubstrChars (pat : List Char) : List Char → Bool
  | [] => pat.isEmpty
  | c :: rest => pat.isPrefixOf (c :: rest) || hasSubstrChars pat rest

/-- Substring test on strings. -/
def hasSubstr (pat s : String) : Bool := hasSubstrChars pat.data s.data

/-- Python `key in x` for a string key, raising `TypeError` on values that
support no membership test. -/
def pyInStr (key : String) : JSON → Except Unit Bool
  | JSON.obj kvs => Except.ok (kvs.any (fun kv => kv.1 == key))
  | JSON.arr xs =>
      Except.ok (xs.any (fun x => match x with | JSON.s t => t == key | _ => false))
  | JSON.s t => Except.ok (hasSubstr key t)
  | _ => Except.error ()

/-- `x.get(key, default)` as an attribute access: only dicts have `.get`,
anything else raises `AttributeError`. -/
def pyGet (j : JSON) (key : String) (dflt : JSON) : Except Unit JSON :=
  match j with
  | JSON.obj kvs => Except.ok (dictGet kvs key dflt)
  | _ => Except.error ()

/-- Python iteration over a JSON value: a list yields its elements, a dict
its keys, a string its one-character substrings; other values raise
`TypeError`. -/
def pyIter : JSON → Except Unit (List JSON)
  | JSON.arr xs => Except.ok xs
  | JSON.obj kvs => Except.ok (kvs.map (fun kv => JSON.s kv.1))
  | JSON.s t => Except.ok (t.data.map (fun c => JSON.s (String.singleton c)))
  | _ => Except.error ()

/-- Single-quoted rendering of a string inside a container, as Python
`repr` does (escape sequences are not reproduced — no claim observes the
rendering of containers). -/
def pyQuoted (st : String) : String :=
  let q := String.singleton (Char.ofNat 39)
  q ++ st ++ q

/-- Python `repr`-style rendering of a JSON value (used by `str()` on
lists and dicts). -/
def pyRepr : JSON → String
  | JSON.null => "None"
  | JSON.b true => "True"
  | JSON.b false => "False"
  | JSON.i n => toString n
  | JSON.s st => pyQuoted st
  | JSON.arr xs =>
      "[" ++ String.intercalate ", " (xs.attach.map (fun x => pyRepr x.1)) ++ "]"
  | JSON.obj kvs =>
      "\x7b" ++ String.intercalate ", "
        (kvs.attach.map (fun kv => pyQuoted kv.1.1 ++ ": " ++ pyRepr kv.1.2)) ++ "\x7d"
decreasing_by
  · calc sizeOf x.1 < sizeOf xs := List.sizeOf_lt_of_mem x.2
      _ < sizeOf (JSON.arr xs) := by simp
  · calc sizeOf kv.1.2 < sizeOf kv.1 := by cases kv.1; simp
      _ < sizeOf kvs := List.sizeOf_lt_of_mem kv.2
      _ < sizeOf (JSON.obj kvs) := by simp

/-- Python `str(x)` on a JSON value. -/
def pyStr : JSON → String
  | JSON.s st => st
  | JSON.i n => toString n
  | JSON.b true => "True"
  | JSON.b false => "False"
  | JSON.null => "None"
  | JSON.arr xs => pyRepr (JSON.arr xs)
  | JSON.obj kvs => pyRepr (JSON.obj kvs)

/-- The whitespace characters removed by Python `str.strip()`. -/
def isPySpace (c : Char) : Bool :=
  c == ' ' || c == '\t' || c == '\n' || c == '\r' || c == Char.ofNat 11 || c == Char.ofNat 12

/-- Python `s.strip()`. -/
def pyStrip (s : String) : String :=
  String.mk (((s.data.dropWhile isPySpace).reverse.dropWhile isPySpace).reverse)

/-- `s.replace('Z', '+00:00')` — every occurrence of the character `Z` is
replaced, as Python `str.replace` does. -/
def replaceZ (s : String) : String :=
  String.mk (s.data.flatMap (fun c => if c == 'Z' then "+00:00".data else [c]))

/-! ### A model of `datetime.fromisoformat` and aware-datetime comparison -/

/-- Parse exactly `n` decimal digits, returning their value and the rest. -/
def parseNDigitsAux (acc : Nat) : Nat → List Char → Option (Nat × List Char)
  | 0, cs => some (acc, cs)
  | n + 1, [] => let _ := n; none
  | n + 1, c :: cs =>
      if c.isDigit then parseNDigitsAux (acc * 10 + (c.toNat - 48)) n cs else none

/-- Parse exactly `n` decimal digits from the front of a character list. -/
def parseNDigits (n : Nat) (cs : List Char) : Option (Nat × List Char) :=
  parseNDigitsAux 0 n cs

/-- Expect a specific character at the front of the input. -/
def expectChar (c : Char) : List Char → Option (List Char)
  | [] => none
  | c' :: cs => if c' == c then some cs else none

/-- Is `y` a Gregorian leap year? -/
def isLeapYear (y : Nat) : Bool :=
  y % 4 == 0 && (y % 100 != 0 || y % 400 == 0)

/-- Number of days in month `m` of year `y`. -/
def daysInMonth (y m : Nat) : Nat :=
  if m == 2 then (if isLeapYear y then 29 else 28)
  else if m == 4 || m == 6 || m == 9 || m == 11 then 30
  else 31

/-- Days from the civil epoch 1970-01-01 to `y-m-d` (proleptic Gregorian),
the standard era/year-of-era computation. -/
def daysFromCivil (y m d : Nat) : Int :=
  let yAdj := if m ≤ 2 then y - 1 else y
  let era := yAdj / 400
  let yoe := yAdj % 400
  let mp := (m + 9) % 12
  let doy := (153 * mp + 2) / 5 + (d - 1)
  let doe := yoe * 365 + yoe / 4 - yoe / 100 + doy
  (era * 146097 + doe : Int) - 719468

/-- A parsed Python datetime: civil fields, microseconds, and the UTC
offset in minutes when the datetime is aware. -/
structure PyDatetime where
  year : Nat
  month : Nat
  day : Nat
  hour : Nat
  minute : Nat
  second : Nat
  usec : Nat
  offMinutes : Option Int

/-- Parse the fractional-second part after the `.`: one to six digits,
scaled to microseconds. -/
def parseFrac (cs : List Char) : Option (Nat × List Char) :=
  let digits := cs.takeWhile Char.isDigit
  let rest := cs.drop digits.length
  if digits.length == 0 || 6 < digits.length then none
  else
    let v := digits.foldl (fun a c => a * 10 + (c.toNat - 48)) 0
    some (v * 10 ^ (6 - digits.length), rest)

/-- Parse an optional `±HH:MM` UTC offset, validating the ranges Python's
`timezone` accepts. -/
def parseOffset : List Char → Option (Option Int × List Char)
  | [] => some (none, [])
  | c :: cs =>
      if c == '+' || c == '-' then
        match parseNDigits 2 cs with
        | none => none
        | some (oh, cs1) =>
          match expectChar ':' cs1 with
          | none => none
          | some cs2 =>
            match parseNDigits 2 cs2 with
            | none => none
            | some (om, cs3) =>
              if oh ≤ 23 && om ≤ 59 then
                let total : Int := oh * 60 + om
                some (some (if c == '-' then -total else total), cs3)
              else none
      else none

/-- Parse the time-of-day part `HH[:MM[:SS[.frac]]][±HH:MM]`, which must
consume the whole input. -/
def parseTimePart (cs : List Char) : Option (Nat × Nat × Nat × Nat × Option Int) :=
  match parseNDigits 2 cs with
  | none => none
  | some (hh, cs1) =>
    match cs1 with
    | ':' :: cs2 =>
      (match parseNDigits 2 cs2 with
       | none => none
       | some (mm, cs3) =>
         match cs3 with
         | ':' :: cs4 =>
           (match parseNDigits 2 cs4 with
            | none => none
            | some (ss, cs5) =>
              match cs5 with
              | '.' :: cs6 =>
                (match parseFrac cs6 with
                 | none => none
                 | some (us, cs7) =>
                   match parseOffset cs7 with
                   | some (off, []) => some (hh, mm, ss, us, off)
                   | _ => none)
              | _ =>
                match parseOffset cs5 with
                | some (off, []) => some (hh, mm, ss, 0, off)
                | _ => none)
         | _ =>
           match parseOffset cs3 with
           | some (off, []) => some (hh, mm, 0, 0, off)
           | _ => none)
    | _ =>
      match parseOffset cs1 with
      | some (off, []) => some (hh, 0, 0, 0, off)
      | _ => none

/-- Model of `datetime.fromisoformat` on the extended ISO-8601 forms in
scope (see the module comment for the model boundary). -/
def fromisoformat (s : String) : Option PyDatetime :=
  match parseNDigits 4 s.data with
  | none => none
  | some (yy, cs1) =>
    match expectChar '-' cs1 with
    | none => none
    | some cs2 =>
      match parseNDigits 2 cs2 with
      | none => none
      | some (mo, cs3) =>
        match expectChar '-' cs3 with
        | none => none
        | some cs4 =>
          match parseNDigits 2 cs4 with
          | none => none
          | some (dd, cs5) =>
            if 1 ≤ yy && yy ≤ 9999 && 1 ≤ mo && mo ≤ 12 && 1 ≤ dd && dd ≤ daysInMonth yy mo then
              match cs5 with
              | [] => some ⟨yy, mo, dd, 0, 0, 0, 0, none⟩
              | sep :: cs6 =>
                if sep == 'T' || sep == ' ' then
                  match parseTimePart cs6 with
                  | some (hh, mm, ss, us, off) =>
                      if hh ≤ 23 && mm ≤ 59 && ss ≤ 59 then
                        some ⟨yy, mo, dd, hh, mm, ss, us, off⟩
                      else none
                  | none => none
                else none
            else none

/-- The UTC instant of an aware parsed datetime, in microseconds since the
epoch; `none` for a naive datetime (comparing a naive datetime against the
aware window bounds raises `TypeError` in Python, which the filter's bare
`except` turns into a skip). -/
def toInstantUSec (dt : PyDatetime) : Option Int :=
  match dt.offMinutes with
  | none => none
  | some offMin =>
      some ((daysFromCivil dt.year dt.month dt.day * 86400
              + (dt.hour * 3600 + dt.minute * 60 + dt.second : Nat)) * 1000000
            + (dt.usec : Int) - offMin * 60000000)

/-- Parse a `published` string the way the filter does — replace every `Z`
by `+00:00`, run `fromisoformat`, and keep only datetimes whose comparison
with the aware window bounds succeeds (i.e. aware ones) — yielding the UTC
instant in microseconds. -/
def parsePublishedInstant (s : String) : Option Int :=
  (fromisoformat (replaceZ s)).bind toInstantUSec

/-- Microseconds since the epoch of 2025-01-01T00:00:00Z, the window start
built by `datetime(2025, 1, 1, 0, 0, 0, tzinfo=timezone.utc)`. -/
def year2025StartUSec : Int := daysFromCivil 2025 1 1 * 86400000000

/-- Microseconds since the epoch of 2026-01-01T00:00:00Z, the window end. -/
def year2026StartUSec : Int := daysFromCivil 2026 1 1 * 86400000000

/-! ### The version selector `filter_versions_last_year` -/

/-- One element of the `versions_info` list: the dict the filter appends
for a kept version entry (`version`/`description`/`author` hold whatever
JSON value the payload carried; `publish_time` is the raw string, which is
necessarily a string for a kept entry). -/
structure VersionRecord where
  version : JSON
  publish_time : String
  description : JSON
  author : JSON
  dependencies : Nat

/-- The body of the filter's `for` loop over `versions`: `some record`
when the entry is kept, `none` when it is skipped — by the explicit
`continue`s (missing/falsy timestamp, unparsable timestamp, naive
timestamp whose window comparison raises, out-of-window instant) or by an
exception inside the per-entry `try` (non-dict entry, non-string truthy
timestamp, non-dict `pubspec`, unsized `dependencies` value). -/
def processEntry (version_data : JSON) : Option VersionRecord :=
  match version_data with
  | JSON.obj kvs =>
    let version := dictGet kvs "version" (JSON.s "")
    let publish_time := dictGet kvs "published" (JSON.s "")
    let pubspec := dictGet kvs "pubspec" (JSON.obj [])
    if pyTruthy publish_time then
      match publish_time with
      | JSON.s ps =>
        match parsePublishedInstant ps with
        | some t =>
          if year2025StartUSec ≤ t ∧ t < year2026StartUSec then
            match pubspec with
            | JSON.obj pkvs =>
              let description := dictGet pkvs "description" (JSON.s "")
              let author_info := pyOr (dictGet pkvs "author" (JSON.s ""))
                                      (dictGet pkvs "authors" (JSON.arr []))
              let author : JSON :=
                match author_info with
                | JSON.arr xs => (match xs with | [] => JSON.s "" | x :: _ => x)
                | other => JSON.s (pyStr other)
              match pyLen (dictGet pkvs "dependencies" (JSON.obj [])) with
              | Except.ok n => some ⟨version, ps, description, author, n⟩
              | Except.error _ => none
            | _ => none
          else none
        | none => none
      | _ => none
    else none
  | _ => none

/-- Stable descending insertion by the raw `publish_time` string: the new
element goes before the first existing element whose key is not greater,
so earlier list elements stay ahead of later ones with an equal key. -/
def insertByPublishDesc (x : VersionRecord) : List VersionRecord → List VersionRecord
  | [] => [x]
  | y :: ys =>
      if x.publish_time < y.publish_time then y :: insertByPublishDesc x ys
      else x :: y :: ys

/-- A stable descending sort by `publish_time`, modelling
`versions_info.sort(key=..., reverse=True)` (Timsort is stable, and
`reverse=True` keeps equal-key elements in their original order; a stable
sort that is descending on the key is unique, so this insertion sort
agrees with it). -/
def sortByPublishDesc : List VersionRecord → List VersionRecord
  | [] => []
  | x :: xs => insertByPublishDesc x (sortByPublishDesc xs)

/-- The version entries the filter iterates: `[]` from the early return
(falsy payload, or no `versions` membership), the payload's entries
otherwise; `Except.error` models an exception escaping the function
(`in` on a non-container, `.get` on a non-dict, iterating a non-iterable). -/
def versionEntries (package_data : JSON) : Except Unit (List JSON) :=
  if pyTruthy package_data then
    match pyInStr "versions" package_data with
    | Except.error e => Except.error e
    | Except.ok false => Except.ok []
    | Except.ok true =>
      match pyGet package_data "versions" (JSON.arr []) with
      | Except.error e => Except.error e
      | Except.ok versions =>
        match pyIter versions with
        | Except.error e => Except.error e
        | Except.ok entries => Except.ok entries
  else Except.ok []

/-- `filter_versions_last_year(package_data, ...)`: keep the qualifying
entries and sort them descending by raw publish-time string. -/
def filter_versions_last_year (package_data : JSON) : Except Unit (List VersionRecord) :=
  (versionEntries package_data).map (fun entries => sortByPublishDesc (entries.filterMap processEntry))

/-! Claim-side characterisations for the year-window selector. -/

/-- The entry's publish-timestamp string, when it has one: the value of a
`published` key that is a string (an absent or non-string `published` is a
missing timestamp). -/
def entryTimestamp (version_data : JSON) : Option String :=
  match version_data with
  | JSON.obj kvs =>
    (match dictGet kvs "published" (JSON.s "") with
     | JSON.s ps => some ps
     | _ => none)
  | _ => none

/-- The instant the entry's timestamp denotes, when it parses (with `Z`
treated as `+00:00`) to an offset-aware datetime. -/
def entryInstant (version_data : JSON) : Option Int :=
  (entryTimestamp version_data).bind parsePublishedInstant

/-- Claim-side window test: the entry's publish timestamp parses to an
instant `t` with `2025-01-01T00:00:00Z ≤ t < 2026-01-01T00:00:00Z`. -/
def includedWindow (version_data : JSON) : Bool :=
  match entryInstant version_data with
  | some t => decide (year2025StartUSec ≤ t) && decide (t < year2026StartUSec)
  | none => false

/-- Is an `Except` a success? -/
def exceptOk {ε α : Type} : Except ε α → Bool
  | Except.ok _ => true
  | Except.error _ => false

/-- Claim-side extraction test: the remaining field extraction of the
entry raises no exception — its `pubspec` (defaulting to `{}`) is a dict
and that dict's `dependencies` value (defaulting to `{}`) has a length. -/
def extractionOk (version_data : JSON) : Bool :=
  match version_data with
  | JSON.obj kvs =>
    (match dictGet kvs "pubspec" (JSON.obj []) with
     | JSON.obj pkvs => exceptOk (pyLen (dictGet pkvs "dependencies" (JSON.obj [])))
     | _ => false)
  | _ => false

/-- The kept-iff-characterised property for a list of version entries. -/
def inclusionCharacter (vs : List JSON) : Prop :=
  ∀ v ∈ vs, (processEntry v).isSome = (includedWindow v && extractionOk v)

/-- Result list sorted descending by the raw publish-time string. -/
def sortedDescByPublish (l : List VersionRecord) : Prop :=
  l.Pairwise (fun a b => b.publish_time ≤ a.publish_time)

/-- Stability: for every timestamp string, the result's records with that
timestamp appear in exactly the order the pre-sort extraction produced
them (which is payload order). -/
def stableWrtPublish (out pre : List VersionRecord) : Prop :=
  ∀ k : String, out.filter (fun r => r.publish_time == k)
    = pre.filter (fun r => r.publish_time == k)

/-! ### The registry client `get_package_versions` -/

/-- What the single `requests.get` call produced: a response with a status
and parsed JSON body, or a raised `requests.exceptions.RequestException`
(transport error or timeout) with its message. -/
inductive HttpOutcome where
  | resp (status : Nat) (body : JSON) : HttpOutcome
  | exn (cause : String) : HttpOutcome

/-- `get_package_versions(package_name, proxies)` given the HTTP outcome:
`raise_for_status` raises `HTTPError` (a `RequestException`) exactly for
4xx/5xx statuses; every caught `RequestException` is logged and turned
into `None`; otherwise the parsed body is returned unchanged. -/
def get_package_versions (package_name : String) (outcome : HttpOutcome) : Option JSON :=
  match outcome with
  | HttpOutcome.exn _ => let _ := package_name; none
  | HttpOutcome.resp status body =>
      if 400 ≤ status ∧ status < 600 then none else some body

/-! ### The worker `scan_single_package` -/

/-- `scan_single_package` given the fetch outcome (`None` on failure): a
truthy payload goes to the filter (`some versions` on success, `none` if
the filter raises, via the worker's outer `except`); a falsy or absent
payload yields `result = None`. -/
def scan_single_package (package_name : String) (fetched : Option JSON) :
    String × Option (List VersionRecord) :=
  match fetched with
  | none => (package_name, none)
  | some package_data =>
      if pyTruthy package_data then
        match filter_versions_last_year package_data with
        | Except.ok versions => (package_name, some versions)
        | Except.error _ => (package_name, none)
      else (package_name, none)

/-- The data model's tri-state per-package outcome. -/
inductive ScanResult where
  | Failed : ScanResult
  | Empty : ScanResult
  | Found (records : List VersionRecord) : ScanResult

/-- Read a recorded `result` value as a `ScanResult`: `None` is `Failed`,
an empty list `Empty`, a non-empty list `Found`. -/
def outcomeOf : Option (List VersionRecord) → ScanResult
  | none => ScanResult.Failed
  | some [] => ScanResult.Empty
  | some (r :: rs) => ScanResult.Found (r :: rs)

/-- The amended claim's classification of a worker outcome: a fetch
failure is `Failed`; a successful fetch of a truthy payload goes to the
selector (`Found` on a non-empty sequence, `Empty` on an empty one,
`Failed` if the selector raises); a successful fetch of a falsy payload
(such as the empty JSON object) is recorded `Failed`. -/
def classifySpec (fetched : Option JSON) : ScanResult :=
  match fetched with
  | none => ScanResult.Failed
  | some payload =>
      if pyTruthy payload then
        match filter_versions_last_year payload with
        | Except.error _ => ScanResult.Failed
        | Except.ok [] => ScanResult.Empty
        | Except.ok (r :: rs) => ScanResult.Found (r :: rs)
      else ScanResult.Failed

/-! ### The input loader `read_pubdev_packages` -/

/-- A spreadsheet cell value as `openpyxl` yields it (`values_only`):
`None` for an empty cell, or a string / integer / boolean value. -/
inductive CellValue where
  | vNone : CellValue
  | vStr (s : String) : CellValue
  | vInt (n : Int) : CellValue
  | vBool (b : Bool) : CellValue

/-- Python truthiness of a cell value. -/
def pyTruthyCell : CellValue → Bool
  | CellValue.vNone => false
  | CellValue.vStr st => st != ""
  | CellValue.vInt n => n != 0
  | CellValue.vBool bo => bo

/-- Python `str(value)` of a cell value. -/
def pyStrCell : CellValue → String
  | CellValue.vNone => "None"
  | CellValue.vStr st => st
  | CellValue.vInt n => toString n
  | CellValue.vBool true => "True"
  | CellValue.vBool false => "False"

/-- `read_pubdev_packages`: iterate the rows from row 2 on (`min_row=2`),
append `str(row[0]).strip()` whenever the first-column value is truthy
(`iter_rows` pads rows to the sheet width with `None`, so `row[0]` of a
padded row reads as an empty cell). -/
def read_pubdev_packages (rows : List (List CellValue)) : List String :=
  (rows.drop 1).foldl
    (fun packages row =>
      if pyTruthyCell (row.headD CellValue.vNone) then
        packages ++ [pyStrip (pyStrCell (row.headD CellValue.vNone))]
      else packages)
    []

/-- Claim-side count of data rows whose first column is truthy. -/
def countTruthyRows (rows : List (List CellValue)) : Nat :=
  ((rows.drop 1).map (fun row => row.headD CellValue.vNone)).countP
    (fun v => pyTruthyCell v)

/-- Claim-side notion of a non-empty cell: it holds a value, i.e. it is
neither `None` nor the empty string. -/
def cellNonEmpty : CellValue → Bool
  | CellValue.vNone => false
  | CellValue.vStr st => st != ""
  | _ => true

/-- Claim-side count of data rows whose first column is non-empty. -/
def countNonEmptyRows (rows : List (List CellValue)) : Nat :=
  ((rows.drop 1).map (fun row => row.headD CellValue.vNone)).countP
    (fun v => cellNonEmpty v)

/-! ### Result aggregation in `main` -/

/-- `d[k] = v` on a Python dict modelled as its insertion-ordered
key–value list: assignment to an existing key updates its value in place
(the key keeps its position), a new key is appended at the end. -/
def dictSet {V : Type} : List (String × V) → String → V → List (String × V)
  | [], k, v => [(k, v)]
  | kv :: rest, k, v =>
      if kv.1 = k then (k, v) :: rest else kv :: dictSet rest k v

/-- `d[k]` lookup on the dict model. -/
def dictLookup {V : Type} (d : List (String × V)) (k : String) : Option V :=
  (d.find? (fun kv => kv.1 == k)).map (fun kv => kv.2)

/-- The `as_completed` collection loop of `main`: starting from `{}`,
execute `results[package_name] = result` for each completed task, in
completion order.  Every submitted task contributes exactly one pair —
`scan_single_package` returns `(package_name, result)` in all its
branches, and `main`'s own `except` arm records `None` under the
`future_to_package` name — so a run over inputs `packages` with
per-occurrence results `outcomes` processes some permutation of
`packages.zip outcomes`. -/
def collectResults {V : Type} (contrib : List (String × V)) : List (String × V) :=
  contrib.foldl (fun d kv => dictSet d kv.1 kv.2) []

/-- The last result delivered for identifier `k`, over the completion
order `contrib`. -/
def lastContribution {V : Type} (contrib : List (String × V)) (k : String) : Option V :=
  (contrib.reverse.find? (fun kv => kv.1 == k)).map (fun kv => kv.2)

/-- The final mapping returns, for every identifier, the last result
merged for it. -/
def agreesWithLastContribution {V : Type}
    (d contrib : List (String × V)) : Prop :=
  ∀ p : String, dictLookup d p = lastContribution contrib p

/-! ### The progress counter -/

/-- The per-task critical section under the shared lock: increment
`progress['completed']` and print one line carrying the new value.  Both
branches of `scan_single_package` execute it exactly once per task, so a
whole run is the fold of this section over the tasks in some completion
order; the returned list is the sequence of counter values appearing in
the log lines. -/
def progressLogs {A : Type} (order : List A) : List Nat :=
  (order.foldl (fun acc _ => (acc.1 + 1, acc.2 ++ [acc.1 + 1])) ((0 : Nat), ([] : List Nat))).2

/-! ### The report writer `write_results_to_excel` -/

/-- Header row of the detail sheet. -/
def detailHeader : List JSON :=
  [JSON.s "包名", JSON.s "版本", JSON.s "发布时间", JSON.s "描述", JSON.s "作者", JSON.s "依赖数量"]

/-- The detail-sheet rows for one `(package_name, versions)` entry:
a `查找失败` (failed) row when the result is `None`, a
`未找到2025年的版本` (no versions found) row when it is an empty list, and
one row per version record otherwise. -/
def detailRowsFor (package_name : String) (versions : Option (List VersionRecord)) :
    List (List JSON) :=
  match versions with
  | none =>
      [[JSON.s package_name, JSON.s "查找失败", JSON.s "", JSON.s "", JSON.s "", JSON.s ""]]
  | some [] =>
      [[JSON.s package_name, JSON.s "未找到2025年的版本", JSON.s "", JSON.s "", JSON.s "", JSON.s ""]]
  | some (r :: rs) =>
      (r :: rs).map (fun vi =>
        [JSON.s package_name, vi.version, JSON.s vi.publish_time,
         vi.description, vi.author, JSON.i (vi.dependencies : Int)])

/-- The detail sheet: the header row, then the per-entry rows appended
while iterating `results.items()` (dict order = the order results were
merged). -/
def write_results_detail (results : List (String × Option (List VersionRecord))) :
    List (List JSON) :=
  detailHeader :: results.foldl (fun acc pr => acc ++ detailRowsFor pr.1 pr.2) []

/-- The amended claim's detail-sheet description: header, then for each
identifier in result-mapping order, rows determined by its tri-state
outcome — `Failed`: one row with the identifier and a literal failed
marker in the version column, other columns blank; `Empty`: one row with a
no-versions-found marker, other columns blank; `Found`: one row per
record with columns identifier, version, publish timestamp, description,
author, dependency count. -/
def specRowsFor (package_name : String) : ScanResult → List (List JSON)
  | ScanResult.Failed =>
      [[JSON.s package_name, JSON.s "查找失败", JSON.s "", JSON.s "", JSON.s "", JSON.s ""]]
  | ScanResult.Empty =>
      [[JSON.s package_name, JSON.s "未找到2025年的版本", JSON.s "", JSON.s "", JSON.s "", JSON.s ""]]
  | ScanResult.Found records =>
      records.map (fun vi =>
        [JSON.s package_name, vi.version, JSON.s vi.publish_time,
         vi.description, vi.author, JSON.i (vi.dependencies : Int)])

/-- The detail sheet as the amended claim describes it. -/
def detailSheetSpec (results : List (String × Option (List VersionRecord))) :
    List (List JSON) :=
  detailHeader :: results.flatMap (fun pr => specRowsFor pr.1 (outcomeOf pr.2))

/-- The identifier a sheet row names (its first cell, a string for every
row the writer emits). -/
def rowIdString (row : List JSON) : String :=
  match row.headD JSON.null with
  | JSON.s st => st
  | _ => ""

/-- The identifiers of the detail sheet's data rows, in sheet order. -/
def detailIdentifiers (results : List (String × Option (List VersionRecord))) : List String :=
  (write_results_detail results).tail.map rowIdString

/-- The summary sheet: header, then one row per mapping entry — the
failure marker for `None`, the record count otherwise. -/
def write_results_summary (results : List (String × Option (List VersionRecord))) :
    List (List JSON) :=
  [JSON.s "库名", JSON.s "2025年发布版本数量"] ::
    results.map (fun pr =>
      match pr.2 with
      | none => [JSON.s pr.1, JSON.s "查找失败"]
      | some versions => [JSON.s pr.1, JSON.i (versions.length : Int)])

/-- The identifiers of the summary sheet's data rows, in sheet order. -/
def summaryIdentifiers (results : List (String × Option (List VersionRecord))) : List String :=
  (write_results_summary results).tail.map rowIdString

/-! ### Output-path derivation in `main` -/

/-- Python `s.replace(pat, repl)`: replace the non-overlapping occurrences
of `pat` left to right (fuelled structural recursion; the fuel
`s.length` is enough since each step consumes at least one character). -/
def pyReplaceAux (pat repl : List Char) : Nat → List Char → List Char
  | 0, l => l
  | _ + 1, [] => []
  | fuel + 1, c :: rest =>
      if pat.isPrefixOf (c :: rest) then
        repl ++ pyReplaceAux pat repl fuel (rest.drop (pat.length - 1))
      else c :: pyReplaceAux pat repl fuel rest

/-- Python `s.replace(pat, repl)` on strings. -/
def pyReplace (s pat repl : String) : String :=
  String.mk (pyReplaceAux pat.data repl.data s.data.length s.data)

/-- The fixed result suffix appended to the output path. -/
def resultSuffix : String := "-扫描结果.xlsx"

/-- `main`'s output-path derivation: replace `.xlsx` by the result suffix;
if that changed nothing, strip `.xlsx` (a no-op then) and append the
suffix. -/
def derive_output_file (input_file : String) : String :=
  let output_file := pyReplace input_file ".xlsx" resultSuffix
  if output_file == input_file then pyReplace input_file ".xlsx" "" ++ resultSuffix
  else output_file

/-- The claim's reading of the derivation: replace the input's (trailing)
`.xlsx` extension by the result suffix, appending the suffix instead only
when that extension is absent, and change nothing else in the path. -/
def derive_output_file_claim (input_file : String) : String :=
  if (".xlsx".data).isSuffixOf input_file.data
  then String.mk (input_file.data.take (input_file.data.length - 5)) ++ resultSuffix
  else input_file ++ resultSuffix

/-! ### Helper lemmas: the stable descending sort -/

theorem insertByPublishDesc_perm (x : VersionRecord) (l : List VersionRecord) :
    (insertByPublishDesc x l).Perm (x :: l) := by
  induction l with
  | nil => simp [insertByPublishDesc]
  | cons y ys ih =>
      simp only [insertByPublishDesc]
      split
      · exact ((ih.cons y).trans (List.Perm.swap x y ys))
      · exact List.Perm.refl _

theorem sortByPublishDesc_perm (l : List VersionRecord) :
    (sortByPublishDesc l).Perm l := by
  induction l with
  | nil => simp [sortByPublishDesc]
  | cons x xs ih =>
      simp only [sortByPublishDesc]
      exact (insertByPublishDesc_perm x (sortByPublishDesc xs)).trans (ih.cons x)

theorem insertByPublishDesc_pairwise (x : VersionRecord) (l : List VersionRecord)
    (hl : sortedDescByPublish l) : sortedDescByPublish (insertByPublishDesc x l) := by
  induction l with
  | nil => simp [insertByPublishDesc, sortedDescByPublish]
  | cons y ys ih =>
      simp only [sortedDescByPublish, List.pairwise_cons] at hl
      simp only [insertByPublishDesc]
      split
      · rename_i hlt
        have hins := ih hl.2
        simp only [sortedDescByPublish, List.pairwise_cons] at hins
        simp only [sortedDescByPublish, List.pairwise_cons]
        refine ⟨?_, hins⟩
        intro a ha
        rcases List.mem_cons.mp ((insertByPublishDesc_perm x ys).mem_iff.mp ha) with h | h
        · subst h; exact le_of_lt hlt
        · exact hl.1 a h
      · rename_i hge
        have hxy : y.publish_time ≤ x.publish_time := le_of_not_lt hge
        simp only [sortedDescByPublish, List.pairwise_cons]
        refine ⟨?_, hl.1, hl.2⟩
        intro a ha
        rcases List.mem_cons.mp ha with h | h
        · subst h; exact hxy
        · exact le_trans (hl.1 a h) hxy

theorem sortByPublishDesc_sorted (l : List VersionRecord) :
    sortedDescByPublish (sortByPublishDesc l) := by
  induction l with
  | nil => simp [sortByPublishDesc, sortedDescByPublish]
  | cons x xs ih => exact insertByPublishDesc_pairwise x (sortByPublishDesc xs) ih

theorem insertByPublishDesc_filter (x : VersionRecord) (l : List VersionRecord) (k : String) :
    (insertByPublishDesc x l).filter (fun r => r.publish_time == k)
      = if x.publish_time = k then x :: l.filter (fun r => r.publish_time == k)
        else l.filter (fun r => r.publish_time == k) := by
  induction l with
  | nil =>
      by_cases hxk : x.publish_time = k
      · simp [insertByPublishDesc, hxk]
      · simp [insertByPublishDesc, hxk]
  | cons y ys ih =>
      simp only [insertByPublishDesc]
      split
      · rename_i hlt
        by_cases hxk : x.publish_time = k
        · have hyk : ¬ (y.publish_time = k) := by
            intro hy
            rw [hy, ← hxk] at hlt
            exact lt_irrefl _ hlt
          simp [List.filter_cons, hxk, hyk, ih]
        · simp [List.filter_cons, hxk, ih]
      · by_cases hxk : x.publish_time = k
        · simp [List.filter_cons, hxk]
        · simp [List.filter_cons, hxk]

theorem sortByPublishDesc_stable (l : List VersionRecord) :
    stableWrtPublish (sortByPublishDesc l) l := by
  intro k
  induction l with
  | nil => simp [sortByPublishDesc]
  | cons x xs ih =>
      simp only [sortByPublishDesc, insertByPublishDesc_filter, List.filter_cons]
      by_cases hxk : x.publish_time = k
      · simp [hxk, ih]
      · simp [hxk, ih]

/-! ### Helper lemmas: progress counter, loader, dict aggregation -/

theorem progressLogs_foldl {A : Type} (l : List A) (c : Nat) (acc : List Nat) :
    (l.foldl (fun st _ => (st.1 + 1, st.2 ++ [st.1 + 1])) (c, acc)).2
      = acc ++ List.range' (c + 1) l.length := by
  induction l generalizing c acc with
  | nil => simp
  | cons x xs ih =>
      simp only [List.foldl_cons, ih, List.length_cons, List.range'_succ]
      simp

theorem progressLogs_eq {A : Type} (l : List A) :
    progressLogs l = List.range' 1 l.length := by
  simpa using progressLogs_foldl l 0 []

theorem read_pubdev_packages_foldl (rows : List (List CellValue)) (acc : List String) :
    rows.foldl
        (fun packages row =>
          if pyTruthyCell (row.headD CellValue.vNone) then
            packages ++ [pyStrip (pyStrCell (row.headD CellValue.vNone))]
          else packages)
        acc
      = acc ++ ((rows.map (fun row => row.headD CellValue.vNone)).filter
          (fun v => pyTruthyCell v)).map (fun v => pyStrip (pyStrCell v)) := by
  induction rows generalizing acc with
  | nil => simp
  | cons row rest ih =>
      simp only [List.foldl_cons, List.map_cons, List.filter_cons]
      by_cases h : pyTruthyCell (row.headD CellValue.vNone)
      · rw [if_pos h, if_pos h, ih]
        simp
      · rw [if_neg h, if_neg h, ih]

theorem read_pubdev_packages_eq (rows : List (List CellValue)) :
    read_pubdev_packages rows
      = (((rows.drop 1).map (fun row => row.headD CellValue.vNone)).filter
          (fun v => pyTruthyCell v)).map (fun v => pyStrip (pyStrCell v)) := by
  simpa [read_pubdev_packages] using read_pubdev_packages_foldl (rows.drop 1) []

theorem dictSet_keys {V : Type} (d : List (String × V)) (k : String) (v : V) :
    (dictSet d k v).map Prod.fst
      = if k ∈ d.map Prod.fst then d.map Prod.fst else d.map Prod.fst ++ [k] := by
  induction d with
  | nil => simp [dictSet]
  | cons kv rest ih =>
      simp only [dictSet]
      by_cases h0 : kv.1 = k
      · simp [h0]
      · rw [if_neg h0]
        by_cases hmem : k ∈ rest.map Prod.fst
        · have hmem2 : k ∈ (kv :: rest).map Prod.fst := by
            simp only [List.map_cons, List.mem_cons]
            exact Or.inr hmem
          rw [if_pos hmem2]
          simp only [List.map_cons, ih, if_pos hmem]
        · have hmem2 : k ∉ (kv :: rest).map Prod.fst := by
            simp only [List.map_cons, List.mem_cons]
            rintro (h | h)
            · exact h0 h.symm
            · exact hmem h
          rw [if_neg hmem2]
          simp only [List.map_cons, ih, if_neg hmem, List.cons_append]

theorem dictSet_keys_nodup {V : Type} (d : List (String × V)) (k : String) (v : V)
    (hd : (d.map Prod.fst).Nodup) : ((dictSet d k v).map Prod.fst).Nodup := by
  rw [dictSet_keys]
  by_cases hmem : k ∈ d.map Prod.fst
  · simpa [hmem] using hd
  · rw [if_neg hmem]
    have hperm : (d.map Prod.fst ++ [k]).Perm (k :: d.map Prod.fst) :=
      List.perm_append_singleton k (d.map Prod.fst)
    exact hperm.nodup_iff.mpr (List.nodup_cons.mpr ⟨hmem, hd⟩)

theorem dictSet_keys_mem {V : Type} (d : List (String × V)) (k q : String) (v : V) :
    q ∈ (dictSet d k v).map Prod.fst ↔ q ∈ d.map Prod.fst ∨ q = k := by
  rw [dictSet_keys]
  by_cases hmem : k ∈ d.map Prod.fst
  · rw [if_pos hmem]
    constructor
    · exact Or.inl
    · rintro (h | h)
      · exact h
      · exact h ▸ hmem
  · rw [if_neg hmem]
    simp [List.mem_append]

theorem dictLookup_nil {V : Type} (q : String) :
    dictLookup ([] : List (String × V)) q = none := by
  simp [dictLookup, List.find?]

theorem dictLookup_cons {V : Type} (kv : String × V) (rest : List (String × V)) (q : String) :
    dictLookup (kv :: rest) q = if kv.1 = q then some kv.2 else dictLookup rest q := by
  by_cases h : kv.1 = q
  · have hb : (kv.1 == q) = true := beq_iff_eq.mpr h
    simp [dictLookup, List.find?, hb, h]
  · have hb : (kv.1 == q) = false := beq_false_of_ne h
    simp [dictLookup, List.find?, hb, h]

theorem dictLookup_dictSet {V : Type} (d : List (String × V)) (k q : String) (v : V) :
    dictLookup (dictSet d k v) q = if q = k then some v else dictLookup d q := by
  induction d with
  | nil =>
      by_cases h : q = k
      · simp [dictSet, dictLookup_cons, h]
      · have h' : ¬ (k = q) := fun hh => h hh.symm
        simp [dictSet, dictLookup_cons, h', h, dictLookup_nil]
  | cons kv rest ih =>
      simp only [dictSet]
      by_cases h0 : kv.1 = k
      · rw [if_pos h0, dictLookup_cons, dictLookup_cons]
        by_cases h : q = k
        · simp [h]
        · have hkq : ¬ (k = q) := fun hh => h hh.symm
          have hkvq : ¬ (kv.1 = q) := fun hh => hkq (h0.symm.trans hh)
          simp [h, hkq, hkvq]
      · rw [if_neg h0, dictLookup_cons, dictLookup_cons, ih]
        by_cases h : q = k
        · simp [h, h0]
        · simp [h]

theorem collectResults_foldl_keys {V : Type} (contrib : List (String × V))
    (d : List (String × V)) (hd : (d.map Prod.fst).Nodup) :
    (((contrib.foldl (fun d kv => dictSet d kv.1 kv.2) d).map Prod.fst).Nodup ∧
     ∀ q, q ∈ (contrib.foldl (fun d kv => dictSet d kv.1 kv.2) d).map Prod.fst
        ↔ q ∈ d.map Prod.fst ∨ q ∈ contrib.map Prod.fst) := by
  induction contrib generalizing d with
  | nil => simpa using hd
  | cons kv rest ih =>
      simp only [List.foldl_cons]
      obtain ⟨hnd, hmem⟩ := ih (dictSet d kv.1 kv.2) (dictSet_keys_nodup d kv.1 kv.2 hd)
      refine ⟨hnd, fun q => ?_⟩
      rw [hmem q, dictSet_keys_mem]
      simp only [List.map_cons, List.mem_cons]
      tauto

theorem collectResults_keys_nodup {V : Type} (contrib : List (String × V)) :
    ((collectResults contrib).map Prod.fst).Nodup :=
  (collectResults_foldl_keys contrib [] (by simp)).1

theorem collectResults_keys_mem {V : Type} (contrib : List (String × V)) (q : String) :
    q ∈ (collectResults contrib).map Prod.fst ↔ q ∈ contrib.map Prod.fst := by
  have h := (collectResults_foldl_keys contrib [] (by simp)).2 q
  simpa [collectResults] using h

theorem find?_append_eq {α : Type} (p : α → Bool) (l1 l2 : List α) :
    (l1 ++ l2).find? p
      = match l1.find? p with
        | some a => some a
        | none => l2.find? p := by
  induction l1 with
  | nil => simp
  | cons a l ih =>
      by_cases h : p a
      · simp [List.find?, h]
      · simp [List.find?, h, ih]

theorem lastContribution_cons {V : Type} (kv : String × V) (rest : List (String × V))
    (q : String) :
    lastContribution (kv :: rest) q
      = match lastContribution rest q with
        | some v => some v
        | none => if kv.1 = q then some kv.2 else none := by
  have hsplit := find?_append_eq (fun kv => kv.1 == q) rest.reverse [kv]
  cases hfound : List.find? (fun kv => kv.1 == q) rest.reverse with
  | some kv0 =>
      rw [hfound] at hsplit
      simp [lastContribution, List.reverse_cons, hsplit, hfound]
  | none =>
      rw [hfound] at hsplit
      by_cases h : kv.1 = q
      · have hb : (kv.1 == q) = true := beq_iff_eq.mpr h
        simp [lastContribution, List.reverse_cons, hsplit, hfound, List.find?, hb, h]
      · have hb : (kv.1 == q) = false := beq_false_of_ne h
        simp [lastContribution, List.reverse_cons, hsplit, hfound, List.find?, hb, h]

theorem collectResults_foldl_lookup {V : Type} (contrib : List (String × V))
    (d : List (String × V)) (q : String) :
    dictLookup (contrib.foldl (fun d kv => dictSet d kv.1 kv.2) d) q
      = match lastContribution contrib q with
        | some v => some v
        | none => dictLookup d q := by
  induction contrib generalizing d with
  | nil => simp [lastContribution, List.find?]
  | cons kv rest ih =>
      simp only [List.foldl_cons, ih (dictSet d kv.1 kv.2), lastContribution_cons,
        dictLookup_dictSet]
      cases lastContribution rest q with
      | some v0 => simp
      | none =>
          by_cases h : q = kv.1
          · have h' : kv.1 = q := h.symm
            simp [h']
          · have h' : ¬ (kv.1 = q) := fun hh => h hh.symm
            simp [h, h']

theorem collectResults_lookup {V : Type} (contrib : List (String × V)) (q : String) :
    dictLookup (collectResults contrib) q = lastContribution contrib q := by
  have h := collectResults_foldl_lookup contrib [] q
  rw [collectResults, h]
  cases lastContribution contrib q with
  | some v => rfl
  | none => exact dictLookup_nil q

/-! ### Helper lemmas: the per-entry characterisation -/

theorem parsePublishedInstant_empty : parsePublishedInstant "" = none := rfl

theorem processEntry_isSome (version_data : JSON) :
    (processEntry version_data).isSome
      = (includedWindow version_data && extractionOk version_data) := by
  cases version_data with
  | null => simp [processEntry, includedWindow, extractionOk, entryInstant, entryTimestamp]
  | b bo => simp [processEntry, includedWindow, extractionOk, entryInstant, entryTimestamp]
  | i n => simp [processEntry, includedWindow, extractionOk, entryInstant, entryTimestamp]
  | s st => simp [processEntry, includedWindow, extractionOk, entryInstant, entryTimestamp]
  | arr xs => simp [processEntry, includedWindow, extractionOk, entryInstant, entryTimestamp]
  | obj kvs =>
      simp only [processEntry, includedWindow, extractionOk, entryInstant, entryTimestamp]
      cases hpub : dictGet kvs "published" (JSON.s "") with
      | s ps =>
          by_cases hps : ps = ""
          · subst hps
            simp [pyTruthy, parsePublishedInstant_empty]
          · have htr : pyTruthy (JSON.s ps) = true := by simp [pyTruthy, hps]
            simp only [htr, if_true, Option.some_bind, Option.bind_some]
            cases hinst : parsePublishedInstant ps with
            | none => simp
            | some t =>
                by_cases hw : year2025StartUSec ≤ t ∧ t < year2026StartUSec
                · simp only [if_pos hw, decide_eq_true hw.1, decide_eq_true hw.2,
                    Bool.and_self, Bool.true_and]
                  cases hpubspec : dictGet kvs "pubspec" (JSON.obj []) with
                  | obj pkvs =>
                      cases hlen : pyLen (dictGet pkvs "dependencies" (JSON.obj [])) with
                      | ok n => simp [exceptOk, hlen]
                      | error e => simp [exceptOk, hlen]
                  | null => simp
                  | b b2 => simp
                  | i n2 => simp
                  | s s2 => simp
                  | arr a2 => simp
                · have hfalse : (decide (year2025StartUSec ≤ t)
                      && decide (t < year2026StartUSec)) = false := by
                    cases hA : decide (year2025StartUSec ≤ t) with
                    | false => simp
                    | true =>
                        cases hB : decide (t < year2026StartUSec) with
                        | false => simp
                        | true => exact absurd ⟨of_decide_eq_true hA, of_decide_eq_true hB⟩ hw
                  simp [if_neg hw, hfalse]
      | null => simp [pyTruthy]
      | b b2 => simp [pyTruthy]
      | i n2 => simp [pyTruthy]
      | arr a2 => simp [pyTruthy]
      | obj o2 => simp [pyTruthy]

/-! ### Helper lemmas: report sheets -/

theorem foldl_append_eq_flatMap {α β : Type} (f : α → List β) (l : List α) (acc : List β) :
    l.foldl (fun a x => a ++ f x) acc = acc ++ l.flatMap f := by
  induction l generalizing acc with
  | nil => simp
  | cons x xs ih => simp [ih]

theorem detailRowsFor_eq_spec (p : String) (o : Option (List VersionRecord)) :
    detailRowsFor p o = specRowsFor p (outcomeOf o) := by
  cases o with
  | none => rfl
  | some l =>
      cases l with
      | nil => rfl
      | cons r rs => rfl

theorem write_results_detail_eq_spec (results : List (String × Option (List VersionRecord))) :
    write_results_detail results = detailSheetSpec results := by
  have hfn : (fun pr : String × Option (List VersionRecord) => detailRowsFor pr.1 pr.2)
      = fun pr => specRowsFor pr.1 (outcomeOf pr.2) :=
    funext fun pr => detailRowsFor_eq_spec pr.1 pr.2
  simp only [write_results_detail, detailSheetSpec, foldl_append_eq_flatMap,
    List.nil_append, hfn]

theorem summaryIdentifiers_eq (results : List (String × Option (List VersionRecord))) :
    summaryIdentifiers results = results.map Prod.fst := by
  simp only [summaryIdentifiers, write_results_summary, List.tail_cons, List.map_map]
  apply List.map_congr_left
  intro pr _
  obtain ⟨p, o⟩ := pr
  cases o with
  | none => rfl
  | some l => rfl

theorem detailRowsFor_ne_nil (p : String) (o : Option (List VersionRecord)) :
    detailRowsFor p o ≠ [] := by
  cases o with
  | none => simp [detailRowsFor]
  | some l => cases l <;> simp [detailRowsFor]

theorem detailRowsFor_ids (p : String) (o : Option (List VersionRecord)) :
    ∀ row ∈ detailRowsFor p o, rowIdString row = p := by
  intro row hrow
  cases o with
  | none =>
      simp only [detailRowsFor, List.mem_singleton] at hrow
      subst hrow
      rfl
  | some l =>
      cases l with
      | nil =>
          simp only [detailRowsFor, List.mem_singleton] at hrow
          subst hrow
          rfl
      | cons r rs =>
          simp only [detailRowsFor, List.mem_map] at hrow
          obtain ⟨vi, _, hvi⟩ := hrow
          subst hvi
          rfl

theorem detailIdentifiers_eq (results : List (String × Option (List VersionRecord))) :
    detailIdentifiers results
      = results.flatMap (fun pr => (detailRowsFor pr.1 pr.2).map rowIdString) := by
  simp only [detailIdentifiers, write_results_detail, foldl_append_eq_flatMap,
    List.nil_append, List.tail_cons, List.map_flatMap]

theorem dedup_uniform_block (p : String) (blk rest : List String)
    (hblk : ∀ a ∈ blk, a = p) (hne : blk ≠ []) (hmem : p ∉ rest) :
    (blk ++ rest).dedup = p :: rest.dedup := by
  induction blk with
  | nil => exact absurd rfl hne
  | cons a bs ih =>
      have ha : a = p := hblk a (List.mem_cons_self a bs)
      subst ha
      cases bs with
      | nil =>
          rw [List.singleton_append, List.dedup_cons_of_not_mem hmem]
      | cons b bs2 =>
          have hb : b = a := hblk b (by simp)
          rw [List.cons_append, List.dedup_cons_of_mem]
          · exact ih (fun x hx => hblk x (List.mem_cons_of_mem a hx)) (by simp)
          · rw [hb]
            simp

theorem detailIdentifiers_subset_keys (results : List (String × Option (List VersionRecord)))
    (q : String) (hq : q ∈ detailIdentifiers results) : q ∈ results.map Prod.fst := by
  rw [detailIdentifiers_eq] at hq
  simp only [List.mem_flatMap, List.mem_map] at hq
  obtain ⟨pr, hpr, row, hrow, hid⟩ := hq
  have := detailRowsFor_ids pr.1 pr.2 row hrow
  rw [this] at hid
  exact List.mem_map.mpr ⟨pr, hpr, hid⟩

theorem detailIdentifiers_dedup (results : List (String × Option (List VersionRecord)))
    (h : (results.map Prod.fst).Nodup) :
    (detailIdentifiers results).dedup = results.map Prod.fst := by
  induction results with
  | nil => rfl
  | cons pr rest ih =>
      have hids : detailIdentifiers (pr :: rest)
          = (detailRowsFor pr.1 pr.2).map rowIdString ++ detailIdentifiers rest := by
        rw [detailIdentifiers_eq, detailIdentifiers_eq, List.flatMap_cons]
      rw [hids]
      simp only [List.map_cons, List.nodup_cons] at h
      rw [dedup_uniform_block pr.1 _ _ ?_ ?_ ?_]
      · rw [ih h.2, List.map_cons]
      · intro a ha
        simp only [List.mem_map] at ha
        obtain ⟨row, hrow, hid⟩ := ha
        rw [← hid]
        exact detailRowsFor_ids pr.1 pr.2 row hrow
      · simp [detailRowsFor_ne_nil pr.1 pr.2]
      · intro hmem
        exact h.1 (detailIdentifiers_subset_keys rest pr.1 hmem)

/-! ### Helper lemmas: string replacement and path derivation -/

theorem pyReplaceAux_no_match (pat repl : List Char) :
    ∀ fuel l, l.length ≤ fuel → hasSubstrChars pat l = false →
      pyReplaceAux pat repl fuel l = l := by
  intro fuel
  induction fuel with
  | zero =>
      intro l h1 h2
      rfl
  | succ f ih =>
      intro l h1 h2
      cases l with
      | nil => rfl
      | cons c rest =>
          simp only [hasSubstrChars, Bool.or_eq_false_iff] at h2
          simp only [pyReplaceAux, h2.1, Bool.false_eq_true, if_false]
          rw [ih rest (by simpa using Nat.le_of_succ_le_succ h1) h2.2]

theorem pyReplaceAux_length_ge (pat repl : List Char) (hpat : pat ≠ [])
    (hlen : pat.length ≤ repl.length) :
    ∀ fuel l, l.length ≤ fuel → l.length ≤ (pyReplaceAux pat repl fuel l).length := by
  have hpat1 : 1 ≤ pat.length := by
    cases pat with
    | nil => exact absurd rfl hpat
    | cons p ps => simp
  intro fuel
  induction fuel with
  | zero =>
      intro l h
      simp [pyReplaceAux]
  | succ f ih =>
      intro l h
      cases l with
      | nil => simp [pyReplaceAux]
      | cons c rest =>
          simp only [List.length_cons] at h
          by_cases hpre : pat.isPrefixOf (c :: rest)
          · simp only [pyReplaceAux, hpre, if_true, List.length_append, List.length_cons]
            have hple : pat.length ≤ rest.length + 1 := by
              have := (List.isPrefixOf_iff_prefix.mp hpre).length_le
              simpa using this
            have hdrop : (rest.drop (pat.length - 1)).length = rest.length - (pat.length - 1) :=
              List.length_drop _ _
            have hrec := ih (rest.drop (pat.length - 1)) (by rw [hdrop]; omega)
            rw [hdrop] at hrec
            omega
          · simp only [pyReplaceAux, hpre, Bool.false_eq_true, if_false, List.length_cons]
            have hrec := ih rest (by omega)
            omega

theorem pyReplaceAux_length_gt (pat repl : List Char) (hpat : pat ≠ [])
    (hlen : pat.length < repl.length) :
    ∀ fuel l, l.length ≤ fuel → hasSubstrChars pat l = true →
      l.length < (pyReplaceAux pat repl fuel l).length := by
  have hpat1 : 1 ≤ pat.length := by
    cases pat with
    | nil => exact absurd rfl hpat
    | cons p ps => simp
  intro fuel
  induction fuel with
  | zero =>
      intro l h1 h2
      cases l with
      | nil =>
          simp only [hasSubstrChars, List.isEmpty_iff] at h2
          exact absurd h2 hpat
      | cons c rest => simp at h1
  | succ f ih =>
      intro l h1 h2
      cases l with
      | nil =>
          simp only [hasSubstrChars, List.isEmpty_iff] at h2
          exact absurd h2 hpat
      | cons c rest =>
          simp only [List.length_cons] at h1
          by_cases hpre : pat.isPrefixOf (c :: rest)
          · simp only [pyReplaceAux, hpre, if_true, List.length_append, List.length_cons]
            have hple : pat.length ≤ rest.length + 1 := by
              have := (List.isPrefixOf_iff_prefix.mp hpre).length_le
              simpa using this
            have hdrop : (rest.drop (pat.length - 1)).length = rest.length - (pat.length - 1) :=
              List.length_drop _ _
            have hrec := pyReplaceAux_length_ge pat repl hpat (le_of_lt hlen) f
              (rest.drop (pat.length - 1)) (by rw [hdrop]; omega)
            rw [hdrop] at hrec
            omega
          · have h2' : hasSubstrChars pat rest = true := by
              simp only [hasSubstrChars, Bool.or_eq_true] at h2
              rcases h2 with h2 | h2
              · exact absurd h2 hpre
              · exact h2
            simp only [pyReplaceAux, hpre, Bool.false_eq_true, if_false, List.length_cons]
            have hrec := ih rest (by omega) h2'
            omega

theorem pyReplace_eq_self (s pat repl : String) (h : hasSubstr pat s = false) :
    pyReplace s pat repl = s := by
  rw [pyReplace, pyReplaceAux_no_match pat.data repl.data s.data.length s.data le_rfl h]

theorem pyReplace_ne_self (s pat repl : String) (hpat : pat.data ≠ [])
    (hlt : pat.data.length < repl.data.length) (h : hasSubstr pat s = true) :
    pyReplace s pat repl ≠ s := by
  intro heq
  have hgt := pyReplaceAux_length_gt pat.data repl.data hpat hlt s.data.length s.data le_rfl h
  have hlen2 : (pyReplaceAux pat.data repl.data s.data.length s.data).length
      = s.data.length := by
    have hdata : (pyReplace s pat repl).data = s.data := by rw [heq]
    rw [pyReplace] at hdata
    exact congrArg List.length hdata
  omega

/-! ### Helper lemmas: permutation and dedup utilities -/

theorem perm_of_nodup_mem_iff (l1 l2 : List String) (h1 : l1.Nodup) (h2 : l2.Nodup)
    (hmem : ∀ q, q ∈ l1 ↔ q ∈ l2) : l1.Perm l2 := by
  apply List.perm_of_nodup_nodup_toFinset_eq h1 h2
  ext q
  simp [List.mem_toFinset, hmem q]

theorem dedup_length_lt (l : List String) (h : ¬ l.Nodup) : l.dedup.length < l.length := by
  have hsub : l.dedup.Sublist l := List.dedup_sublist l
  have hle : l.dedup.length ≤ l.length := hsub.length_le
  rcases lt_or_eq_of_le hle with hlt | heq
  · exact hlt
  · exact absurd (hsub.eq_of_length heq ▸ List.nodup_dedup l) h

/-! ### Claim theorems -/

/-- C1 (amended): for every JSON payload whose version-list extraction
succeeds with entry list `vs`, the year-window selector returns normally
(skipped entries never fail the package), its result is a permutation of
the per-entry extraction of `vs`, and an entry contributes a record if and
only if its publish timestamp parses (treating `Z` as `+00:00`) to an
offset-aware instant `t` with `2025-01-01T00:00:00Z ≤ t <
2026-01-01T00:00:00Z` AND the entry's remaining field extraction raises no
error; entries with missing or unparsable timestamps are always
excluded. -/
theorem filter_year_window_characterization (package_data : JSON) (vs : List JSON)
    (h : versionEntries package_data = Except.ok vs) :
    filter_versions_last_year package_data
        = Except.ok (sortByPublishDesc (vs.filterMap processEntry)) ∧
    (sortByPublishDesc (vs.filterMap processEntry)).Perm (vs.filterMap processEntry) ∧
    inclusionCharacter vs := by
  refine ⟨?_, sortByPublishDesc_perm _, ?_⟩
  · rw [filter_versions_last_year, h]
    rfl
  · intro v _
    exact processEntry_isSome v

/-- Witness for C1: a concrete payload with one in-window entry and one
2024 entry; the theorem applies with its hypothesis discharged by
evaluation. -/
theorem filter_year_window_characterization_witness :
    filter_versions_last_year
        (JSON.obj [("versions", JSON.arr
          [JSON.obj [("version", JSON.s "1.2.3"),
                     ("published", JSON.s "2025-06-01T00:00:00Z"),
                     ("pubspec", JSON.obj [("description", JSON.s "demo"),
                                           ("author", JSON.s "ann"),
                                           ("dependencies", JSON.obj [("http", JSON.null)])])],
           JSON.obj [("published", JSON.s "2024-06-01T00:00:00Z")]])])
        = Except.ok (sortByPublishDesc
            (([JSON.obj [("version", JSON.s "1.2.3"),
                         ("published", JSON.s "2025-06-01T00:00:00Z"),
                         ("pubspec", JSON.obj [("description", JSON.s "demo"),
                                               ("author", JSON.s "ann"),
                                               ("dependencies", JSON.obj [("http", JSON.null)])])],
               JSON.obj [("published", JSON.s "2024-06-01T00:00:00Z")]]).filterMap processEntry)) ∧
    (sortByPublishDesc
        (([JSON.obj [("version", JSON.s "1.2.3"),
                     ("published", JSON.s "2025-06-01T00:00:00Z"),
                     ("pubspec", JSON.obj [("description", JSON.s "demo"),
                                           ("author", JSON.s "ann"),
                                           ("dependencies", JSON.obj [("http", JSON.null)])])],
           JSON.obj [("published", JSON.s "2024-06-01T00:00:00Z")]]).filterMap processEntry)).Perm
      (([JSON.obj [("version", JSON.s "1.2.3"),
                   ("published", JSON.s "2025-06-01T00:00:00Z"),
                   ("pubspec", JSON.obj [("description", JSON.s "demo"),
                                         ("author", JSON.s "ann"),
                                         ("dependencies", JSON.obj [("http", JSON.null)])])],
         JSON.obj [("published", JSON.s "2024-06-01T00:00:00Z")]]).filterMap processEntry) ∧
    inclusionCharacter
        [JSON.obj [("version", JSON.s "1.2.3"),
                   ("published", JSON.s "2025-06-01T00:00:00Z"),
                   ("pubspec", JSON.obj [("description", JSON.s "demo"),
                                         ("author", JSON.s "ann"),
                                         ("dependencies", JSON.obj [("http", JSON.null)])])],
         JSON.obj [("published", JSON.s "2024-06-01T00:00:00Z")]] :=
  filter_year_window_characterization _ _ rfl

/-- Counterexample for C1 as frozen: this entry's publish timestamp parses
to an in-window instant (`includedWindow` is `true`), the entry is the
sole element of the payload's `versions` list, yet the selector excludes
it (the non-dict `pubspec` makes the field extraction raise, skipping the
entry), so inclusion is not equivalent to the timestamp condition
alone. -/
theorem filter_year_window_extraction_counterexample :
    includedWindow (JSON.obj [("published", JSON.s "2025-06-01T00:00:00Z"),
                              ("pubspec", JSON.s "x")]) = true ∧
    versionEntries (JSON.obj [("versions", JSON.arr
        [JSON.obj [("published", JSON.s "2025-06-01T00:00:00Z"), ("pubspec", JSON.s "x")]])])
      = Except.ok [JSON.obj [("published", JSON.s "2025-06-01T00:00:00Z"),
                             ("pubspec", JSON.s "x")]] ∧
    filter_versions_last_year (JSON.obj [("versions", JSON.arr
        [JSON.obj [("published", JSON.s "2025-06-01T00:00:00Z"), ("pubspec", JSON.s "x")]])])
      = Except.ok [] :=
  ⟨rfl, rfl, rfl⟩

/-- C5: the selector's result is sorted descending by the raw
publish-timestamp string, and records with equal timestamp strings keep
the relative order of the pre-sort extraction, which preserves payload
order (the sort is stable). -/
theorem filter_sorted_stable (package_data : JSON) (vs : List JSON)
    (res : List VersionRecord)
    (h1 : versionEntries package_data = Except.ok vs)
    (h2 : filter_versions_last_year package_data = Except.ok res) :
    sortedDescByPublish res ∧ stableWrtPublish res (vs.filterMap processEntry) := by
  rw [filter_versions_last_year, h1] at h2
  simp only [Except.map] at h2
  have hres : res = sortByPublishDesc (vs.filterMap processEntry) := by
    injection h2 with h
    exact h.symm
  subst hres
  exact ⟨sortByPublishDesc_sorted _, sortByPublishDesc_stable _⟩

/-- Witness for C5: a payload with two entries sharing one timestamp and a
later third entry; the theorem applies with both hypotheses discharged by
evaluation. -/
theorem filter_sorted_stable_witness :
    sortedDescByPublish
        (sortByPublishDesc
          (([JSON.obj [("version", JSON.s "a"), ("published", JSON.s "2025-03-01T00:00:00Z")],
             JSON.obj [("version", JSON.s "b"), ("published", JSON.s "2025-03-01T00:00:00Z")],
             JSON.obj [("version", JSON.s "c"), ("published", JSON.s "2025-05-01T00:00:00Z")]]
            ).filterMap processEntry)) ∧
    stableWrtPublish
        (sortByPublishDesc
          (([JSON.obj [("version", JSON.s "a"), ("published", JSON.s "2025-03-01T00:00:00Z")],
             JSON.obj [("version", JSON.s "b"), ("published", JSON.s "2025-03-01T00:00:00Z")],
             JSON.obj [("version", JSON.s "c"), ("published", JSON.s "2025-05-01T00:00:00Z")]]
            ).filterMap processEntry))
        (([JSON.obj [("version", JSON.s "a"), ("published", JSON.s "2025-03-01T00:00:00Z")],
           JSON.obj [("version", JSON.s "b"), ("published", JSON.s "2025-03-01T00:00:00Z")],
           JSON.obj [("version", JSON.s "c"), ("published", JSON.s "2025-05-01T00:00:00Z")]]
          ).filterMap processEntry) :=
  filter_sorted_stable
    (JSON.obj [("versions", JSON.arr
      [JSON.obj [("version", JSON.s "a"), ("published", JSON.s "2025-03-01T00:00:00Z")],
       JSON.obj [("version", JSON.s "b"), ("published", JSON.s "2025-03-01T00:00:00Z")],
       JSON.obj [("version", JSON.s "c"), ("published", JSON.s "2025-05-01T00:00:00Z")]])])
    _ _ rfl rfl

/-- C3 (amended): the worker records `Failed` on a fetch failure and on a
successfully fetched falsy payload (such as the empty JSON object) or a
selector exception; on a truthy payload it records exactly the selector's
verdict — `Empty` for an empty sequence, `Found` otherwise — and it always
returns its own package name. -/
theorem scan_outcome_classification (package_name : String) (fetched : Option JSON) :
    (scan_single_package package_name fetched).1 = package_name ∧
    outcomeOf (scan_single_package package_name fetched).2 = classifySpec fetched := by
  cases fetched with
  | none => exact ⟨rfl, rfl⟩
  | some payload =>
      by_cases ht : pyTruthy payload
      · simp only [scan_single_package, classifySpec, ht, if_true]
        cases hf : filter_versions_last_year payload with
        | ok vs =>
            cases vs with
            | nil => exact ⟨rfl, rfl⟩
            | cons r rs => exact ⟨rfl, rfl⟩
        | error e => exact ⟨rfl, rfl⟩
      · simp only [scan_single_package, classifySpec, ht, Bool.false_eq_true, if_false]
        exact ⟨trivial, rfl⟩

/-- Counterexample for C3 as frozen: the empty JSON object is fetched
successfully (here with HTTP status 200), yet the worker records `Failed`
for it — `if package_data:` treats the falsy payload like a fetch
failure — contradicting the claim that a successful fetch is never
recorded as `Failed`. -/
theorem scan_falsy_payload_counterexample :
    get_package_versions "pkg" (HttpOutcome.resp 200 (JSON.obj [])) = some (JSON.obj []) ∧
    outcomeOf (scan_single_package "pkg" (some (JSON.obj []))).2 = ScanResult.Failed := by
  constructor
  · rw [get_package_versions, if_neg]
    omega
  · rfl

/-- C4: whatever order the workers' critical sections execute in (any
permutation of the tasks), the counter values printed in the progress
lines are exactly `1, 2, ..., N` with no gaps and no repeats, because each
task runs the increment-and-print exactly once under the shared lock. -/
theorem progress_lines_exact_sequence
    (tasks order : List (String × Option (List VersionRecord)))
    (h : order.Perm tasks) :
    progressLogs order = List.range' 1 tasks.length := by
  rw [progressLogs_eq, h.length_eq]

/-- Witness for C4: a two-task run completing in reversed order still logs
counter values 1, 2. -/
theorem progress_lines_exact_sequence_witness :
    progressLogs [("b", (none : Option (List VersionRecord))), ("a", some [])]
      = List.range' 1 ([("a", (some [] : Option (List VersionRecord))), ("b", none)]).length :=
  progress_lines_exact_sequence [("a", some []), ("b", none)] [("b", none), ("a", some [])]
    (List.Perm.swap ("a", some []) ("b", none) [])

/-- C2 (amended): after the wait-for-all collection loop — any completion
order of the per-occurrence contributions, any mix of fetch failures or
worker exceptions (every task still contributes exactly one `(name,
result)` pair) — the result mapping's keys are exactly the input
identifiers (no duplicates, no omissions, given the data model's
uniqueness), and its size equals the number of data rows whose
first-column value is truthy. -/
theorem resultTable_complete_amended
    (rows : List (List CellValue))
    (outcomes : List (Option (List VersionRecord)))
    (contrib : List (String × Option (List VersionRecord)))
    (hlen : outcomes.length = (read_pubdev_packages rows).length)
    (hcontrib : contrib.Perm ((read_pubdev_packages rows).zip outcomes))
    (hnodup : (read_pubdev_packages rows).Nodup) :
    ((collectResults contrib).map Prod.fst).Perm (read_pubdev_packages rows) ∧
    (collectResults contrib).length = (read_pubdev_packages rows).length ∧
    (read_pubdev_packages rows).length = countTruthyRows rows := by
  have hzip : (((read_pubdev_packages rows).zip outcomes).map Prod.fst)
      = read_pubdev_packages rows :=
    List.map_fst_zip _ _ (le_of_eq hlen.symm)
  have hfst : (contrib.map Prod.fst).Perm (read_pubdev_packages rows) := by
    have := hcontrib.map Prod.fst
    rwa [hzip] at this
  have hperm : ((collectResults contrib).map Prod.fst).Perm (read_pubdev_packages rows) := by
    apply perm_of_nodup_mem_iff _ _ (collectResults_keys_nodup contrib) hnodup
    intro q
    rw [collectResults_keys_mem]
    exact hfst.mem_iff
  refine ⟨hperm, ?_, ?_⟩
  · have := hperm.length_eq
    simpa using this
  · simp [read_pubdev_packages_eq, countTruthyRows, List.countP_eq_length_filter]

/-- Witness for C2: a two-package workbook whose scans complete in
reversed order, one of them failing. -/
theorem resultTable_complete_amended_witness :
    ((collectResults [("b", (none : Option (List VersionRecord))), ("a", some [])]).map
        Prod.fst).Perm
      (read_pubdev_packages [[CellValue.vStr "包名"], [CellValue.vStr "a"], [CellValue.vStr "b"]]) ∧
    (collectResults [("b", (none : Option (List VersionRecord))), ("a", some [])]).length
      = (read_pubdev_packages
          [[CellValue.vStr "包名"], [CellValue.vStr "a"], [CellValue.vStr "b"]]).length ∧
    (read_pubdev_packages
        [[CellValue.vStr "包名"], [CellValue.vStr "a"], [CellValue.vStr "b"]]).length
      = countTruthyRows [[CellValue.vStr "包名"], [CellValue.vStr "a"], [CellValue.vStr "b"]] :=
  resultTable_complete_amended
    [[CellValue.vStr "包名"], [CellValue.vStr "a"], [CellValue.vStr "b"]]
    [some [], none]
    [("b", none), ("a", some [])]
    rfl
    (by
      have hz : (read_pubdev_packages
            [[CellValue.vStr "包名"], [CellValue.vStr "a"], [CellValue.vStr "b"]]).zip
            [(some [] : Option (List VersionRecord)), none]
          = [("a", some []), ("b", none)] := rfl
      rw [hz]
      exact List.Perm.swap ("a", some []) ("b", none) [])
    (by decide)

/-- Counterexample for C2 as frozen: a data row holding the integer 0 is
non-empty but falsy, so the loader drops it — the mapping has 1 entry while
the workbook has 2 non-empty first-column data rows. -/
theorem resultTable_nonempty_rows_counterexample :
    read_pubdev_packages [[CellValue.vStr "包名"], [CellValue.vStr "a"], [CellValue.vInt 0]]
      = ["a"] ∧
    (collectResults [("a", (none : Option (List VersionRecord)))]).length = 1 ∧
    countNonEmptyRows [[CellValue.vStr "包名"], [CellValue.vStr "a"], [CellValue.vInt 0]] = 2 ∧
    (1 : Nat) ≠ 2 :=
  ⟨rfl, rfl, rfl, by omega⟩

/-- C6 (amended): for every result mapping, the detail sheet is the header
row followed, for each identifier in result-mapping order (the order
results were merged, i.e. scan completion order — not the original input
order), by: one row with the identifier and the literal failed marker in
the version column (other columns blank) for `Failed`; one row with the
no-versions-found marker (other columns blank) for `Empty`; and one row
per record with columns identifier, version, publish timestamp,
description, author, dependency count for `Found`. -/
theorem detail_sheet_layout_amended (results : List (String × Option (List VersionRecord))) :
    write_results_detail results = detailSheetSpec results :=
  write_results_detail_eq_spec results

/-- Counterexample for C6 as frozen: input order `["a", "b"]`, scan of `b`
completes first; the merged mapping iterates `b` before `a`, so the detail
sheet's data rows name `b` then `a` — not the original input order. -/
theorem detail_sheet_order_counterexample :
    ([("b", (some [] : Option (List VersionRecord))), ("a", none)]).Perm
        ((["a", "b"]).zip [(none : Option (List VersionRecord)), some []]) ∧
    detailIdentifiers
        (collectResults [("b", (some [] : Option (List VersionRecord))), ("a", none)])
      = ["b", "a"] ∧
    (["b", "a"] : List String) ≠ ["a", "b"] := by
  refine ⟨?_, rfl, by decide⟩
  have hz : (["a", "b"]).zip [(none : Option (List VersionRecord)), some []]
      = [("a", none), ("b", some [])] := rfl
  rw [hz]
  exact List.Perm.swap ("a", none) ("b", some []) []

/-- C7 (amended): the registry client is total — it never raises past its
boundary.  A raised `RequestException` (transport error or timeout) and a
4xx/5xx status (the `raise_for_status` range) both yield the failure
sentinel `None`; the identifier and cause appear only in the log line, not
in the returned value.  Any other status returns the parsed body
unchanged. -/
theorem get_package_versions_boundary_amended (package_name cause : String)
    (status : Nat) (body : JSON) :
    get_package_versions package_name (HttpOutcome.exn cause) = none ∧
    (400 ≤ status → status < 600 →
      get_package_versions package_name (HttpOutcome.resp status body) = none) ∧
    (status < 400 ∨ 600 ≤ status →
      get_package_versions package_name (HttpOutcome.resp status body) = some body) := by
  refine ⟨rfl, ?_, ?_⟩
  · intro h1 h2
    simp [get_package_versions, h1, h2]
  · intro h
    rw [get_package_versions, if_neg]
    omega

/-- Witness for C7: a timeout, a 503 and a 200 behave as the amended claim
states. -/
theorem get_package_versions_boundary_amended_witness :
    get_package_versions "demo" (HttpOutcome.exn "timeout") = none ∧
    get_package_versions "demo" (HttpOutcome.resp 503 JSON.null) = none ∧
    get_package_versions "demo" (HttpOutcome.resp 200 (JSON.s "ok")) = some (JSON.s "ok") :=
  ⟨(get_package_versions_boundary_amended "demo" "timeout" 503 JSON.null).1,
   (get_package_versions_boundary_amended "demo" "timeout" 503 JSON.null).2.1
     (by omega) (by omega),
   (get_package_versions_boundary_amended "demo" "timeout" 200 (JSON.s "ok")).2.2
     (Or.inl (by omega))⟩

/-- Counterexample for C7 as frozen: status 304 is not 2xx yet the body is
returned as a success (`raise_for_status` only raises on 4xx/5xx), and the
failure value for two different identifiers and causes is the same bare
`None`, so the returned failure cannot carry the identifier or cause. -/
theorem get_package_versions_counterexample :
    get_package_versions "pkg" (HttpOutcome.resp 304 (JSON.s "cached"))
      = some (JSON.s "cached") ∧
    ¬ (200 ≤ 304 ∧ 304 < 300) ∧
    get_package_versions "a" (HttpOutcome.exn "timeout")
      = get_package_versions "b" (HttpOutcome.exn "connection refused") := by
  refine ⟨?_, by omega, rfl⟩
  rw [get_package_versions, if_neg]
  omega

/-- C8 (amended): the derivation replaces every occurrence of `.xlsx`
anywhere in the input path with the result suffix (not only a trailing
extension); only when `.xlsx` occurs nowhere in the path is the suffix
appended instead. -/
theorem derive_output_path_amended (input_file : String) :
    derive_output_file input_file
      = if hasSubstr ".xlsx" input_file
        then pyReplace input_file ".xlsx" resultSuffix
        else input_file ++ resultSuffix := by
  by_cases h : hasSubstr ".xlsx" input_file = true
  · have hne := pyReplace_ne_self input_file ".xlsx" resultSuffix (by decide) (by decide) h
    have hbeq : (pyReplace input_file ".xlsx" resultSuffix == input_file) = false :=
      beq_false_of_ne hne
    simp only [derive_output_file, hbeq, Bool.false_eq_true, if_false, h, if_true]
  · have hfalse : hasSubstr ".xlsx" input_file = false := by
      cases hv : hasSubstr ".xlsx" input_file
      · rfl
      · exact absurd hv h
    have he : pyReplace input_file ".xlsx" resultSuffix = input_file :=
      pyReplace_eq_self input_file ".xlsx" resultSuffix hfalse
    have he2 : pyReplace input_file ".xlsx" "" = input_file :=
      pyReplace_eq_self input_file ".xlsx" "" hfalse
    have hbeq : (pyReplace input_file ".xlsx" resultSuffix == input_file) = true :=
      beq_iff_eq.mpr he
    simp only [derive_output_file, hbeq, if_true, he2, hfalse, Bool.false_eq_true, if_false]

/-- Counterexample for C8 as frozen: for input `a.xlsx.txt` the extension
is `.txt`, but the code rewrites the mid-path `.xlsx` occurrence, changing
something other than the extension and differing from the
replace-extension-or-append reading of the claim. -/
theorem derive_output_path_counterexample :
    derive_output_file "a.xlsx.txt" = "a-扫描结果.xlsx.txt" ∧
    derive_output_file_claim "a.xlsx.txt" = "a.xlsx.txt-扫描结果.xlsx" ∧
    ("a-扫描结果.xlsx.txt" : String) ≠ "a.xlsx.txt-扫描结果.xlsx" :=
  ⟨rfl, rfl, by decide⟩

/-- C9: the loader returns, in row order, `str(value).strip()` of each
first-column data-row value that is truthy; consequently a whitespace-only
cell contributes the empty-string identifier, while `None`, the empty
string and the integer 0 are dropped. -/
theorem read_pubdev_packages_spec :
    (∀ rows, read_pubdev_packages rows
      = (((rows.drop 1).map (fun row => row.headD CellValue.vNone)).filter
          (fun v => pyTruthyCell v)).map (fun v => pyStrip (pyStrCell v))) ∧
    read_pubdev_packages [[CellValue.vStr "库名"], [CellValue.vStr "   "]] = [""] ∧
    read_pubdev_packages
        [[CellValue.vStr "库名"], [CellValue.vNone], [CellValue.vStr ""], [CellValue.vInt 0]]
      = [] :=
  ⟨read_pubdev_packages_eq, rfl, rfl⟩

/-- C10: with a duplicated identifier every occurrence is still fetched
(one contribution per occurrence), but the mapping keeps a single entry
per distinct identifier — the value merged last wins — so the mapping is
strictly smaller than the input, the summary sheet has exactly one row per
mapping entry, and the detail sheet's identifiers reduce to the same
distinct keys. -/
theorem duplicate_identifiers_collapse
    (packages : List String)
    (outcomes : List (Option (List VersionRecord)))
    (contrib : List (String × Option (List VersionRecord)))
    (hlen : outcomes.length = packages.length)
    (hcontrib : contrib.Perm (packages.zip outcomes))
    (hdup : ¬ packages.Nodup) :
    contrib.length = packages.length ∧
    ((collectResults contrib).map Prod.fst).Perm packages.dedup ∧
    (collectResults contrib).length < packages.length ∧
    agreesWithLastContribution (collectResults contrib) contrib ∧
    summaryIdentifiers (collectResults contrib) = (collectResults contrib).map Prod.fst ∧
    (detailIdentifiers (collectResults contrib)).dedup
      = (collectResults contrib).map Prod.fst := by
  have hzip : ((packages.zip outcomes).map Prod.fst) = packages :=
    List.map_fst_zip _ _ (le_of_eq hlen.symm)
  have hfst : (contrib.map Prod.fst).Perm packages := by
    have := hcontrib.map Prod.fst
    rwa [hzip] at this
  have hkeysperm : ((collectResults contrib).map Prod.fst).Perm packages.dedup := by
    apply perm_of_nodup_mem_iff _ _ (collectResults_keys_nodup contrib)
      (List.nodup_dedup packages)
    intro q
    rw [collectResults_keys_mem, List.mem_dedup]
    exact hfst.mem_iff
  refine ⟨?_, hkeysperm, ?_, ?_, summaryIdentifiers_eq _,
    detailIdentifiers_dedup _ (collectResults_keys_nodup contrib)⟩
  · rw [hcontrib.length_eq, List.length_zip, hlen, min_self]
  · have h1 : (collectResults contrib).length = packages.dedup.length := by
      have := hkeysperm.length_eq
      simpa using this
    rw [h1]
    exact dedup_length_lt packages hdup
  · exact fun p => collectResults_lookup contrib p

/-- Witness for C10: the identifier `a` appears twice; both occurrences
are fetched, the later merge (a failure) overwrites the earlier empty
result, and the mapping has one entry. -/
theorem duplicate_identifiers_collapse_witness :
    ([("a", (some [] : Option (List VersionRecord))), ("a", none)]).length
      = (["a", "a"] : List String).length ∧
    ((collectResults [("a", (some [] : Option (List VersionRecord))), ("a", none)]).map
        Prod.fst).Perm (["a", "a"] : List String).dedup ∧
    (collectResults [("a", (some [] : Option (List VersionRecord))), ("a", none)]).length
      < (["a", "a"] : List String).length ∧
    agreesWithLastContribution
        (collectResults [("a", (some [] : Option (List VersionRecord))), ("a", none)])
        [("a", (some [] : Option (List VersionRecord))), ("a", none)] ∧
    summaryIdentifiers
        (collectResults [("a", (some [] : Option (List VersionRecord))), ("a", none)])
      = (collectResults [("a", (some [] : Option (List VersionRecord))), ("a", none)]).map
          Prod.fst ∧
    (detailIdentifiers
        (collectResults [("a", (some [] : Option (List VersionRecord))), ("a", none)])).dedup
      = (collectResults [("a", (some [] : Option (List VersionRecord))), ("a", none)]).map
          Prod.fst :=
  duplicate_identifiers_collapse ["a", "a"] [some [], none]
    [("a", some []), ("a", none)] rfl (List.Perm.refl _) (by decide)
